import Mathlib

/-!
Verification of the configuration-loading core of i3blocks (regolith fork),
a shallow embedding of `src/config.c`.

The repository ships only `config.c`; its collaborators (`map.c`, `ini.c`,
`sys.c`, libc) are external.  They are modelled here from the spec's interface
description: the key/value store is an association list with insert/overwrite
semantics, the structured-text reader is a fold over an event list that stops
on a handler error, and the OS shim is a record of oracle functions.
All of `config.c`'s own logic is translated statement by statement.
-/

/-- The key/value store of `map.c`.  Modelled from the spec: an ordered mapping
from string key to string value ("create, set (insert/overwrite), copy,
destroy").  `map_set` overwrites an existing binding in place, otherwise
appends. -/
abbrev Map := List (String × String)

/-- Modelled from the spec: `map_set` inserts or overwrites (last write wins). -/
def map_set (m : Map) (k v : String) : Map :=
  match m with
  | [] => [(k, v)]
  | (k', v') :: rest => if k' = k then (k, v) :: rest else (k', v') :: map_set rest k v

/-- First-match lookup in the store. -/
def map_get (m : Map) (k : String) : Option String :=
  match m with
  | [] => none
  | (k', v') :: rest => if k' = k then some v' else map_get rest k

/-- Modelled from the spec: `map_copy dst src` sets every entry of `src` into
`dst`. -/
def map_copy (dst src : Map) : Map :=
  src.foldl (fun m kv => map_set m kv.1 kv.2) dst

/-- Events emitted by the structured-text reader of `ini.c` (external):
"new section named S" and "key K has value V". -/
inductive IniEvent where
  | sec : String → IniEvent
  | prop : String → String → IniEvent
  deriving Repr, DecidableEq

/-- The observable state of `struct config` during one load, together with the
instrumentation a pure embedding needs to observe effects: `trace` records, in
order, every map passed to the user callback, and `created`/`destroyed` count
`map_create`/`map_destroy` calls. -/
structure PState where
  global : Option Map
  sect : Option Map
  trace : List Map
  created : Nat
  destroyed : Nat
  deriving Repr, DecidableEq

def initState : PState := ⟨none, none, [], 0, 0⟩

/-- errno values used by `config.c` (as nonnegative constants; the code uses
their negations as statuses). -/
def EAGAIN : Int := 11

def ENOENT : Int := 2

/-- Model of `config_finalize` (config.c:41-56): if a section is open, deliver it to the
callback; a callback error is returned at once (the section stays open),
otherwise the section reference is dropped.  (The `conf->cb` null check is
omitted: both entry points are invoked with a callback in this development.) -/
def config_finalize (cb : Map → Int) (st : PState) : Int × PState :=
  match st.sect with
  | none => (0, st)
  | some s =>
      if cb s ≠ 0 then (cb s, { st with trace := st.trace ++ [s] })
      else (0, { st with trace := st.trace ++ [s], sect := none })

/-- Model of `config_reset` (config.c:58-68): create a fresh section map and copy the
global defaults into it when they exist.  (Allocation failure `-ENOMEM` is not
modelled: `map_create` always succeeds here.) -/
def config_reset (st : PState) : PState :=
  match st.global with
  | some g => { st with sect := some (map_copy [] g), created := st.created + 1 }
  | none => { st with sect := some [], created := st.created + 1 }

/-- Model of `config_set` (config.c:70-85): write into the open section if any,
otherwise into the global map, creating it on first use. -/
def config_set (st : PState) (k v : String) : PState :=
  match st.sect with
  | some s => { st with sect := some (map_set s k v) }
  | none =>
      match st.global with
      | some g => { st with global := some (map_set g k v) }
      | none => { st with global := some (map_set [] k v), created := st.created + 1 }

/-- Model of `config_ini_section_cb` (config.c:87-100): finalize the previous section,
then reset and record the new section's name. -/
def config_ini_section_cb (cb : Map → Int) (n : String) (st : PState) : Int × PState :=
  if (config_finalize cb st).1 ≠ 0 then config_finalize cb st
  else (0, config_set (config_reset (config_finalize cb st).2) "name" n)

/-- Model of `config_ini_property_cb` (config.c:102-105). -/
def config_ini_property_cb (k v : String) (st : PState) : Int × PState :=
  (0, config_set st k v)

/-- Modelled from the spec: `ini_read` of `ini.c` is not under `src/`.  The
reader feeds each event to the matching handler, aborts on the first handler
error, and returns its end-of-stream status (`-EAGAIN` when it expected more
input) once the event list is exhausted. -/
def ini_read (onSec : String → PState → Int × PState)
    (onProp : String → String → PState → Int × PState)
    (endSt : Int) : List IniEvent → PState → Int × PState
  | [], st => (endSt, st)
  | .sec n :: evs, st =>
      if (onSec n st).1 ≠ 0 then onSec n st
      else ini_read onSec onProp endSt evs (onSec n st).2
  | .prop k v :: evs, st =>
      if (onProp k v st).1 ≠ 0 then onProp k v st
      else ini_read onSec onProp endSt evs (onProp k v st).2

/-- Model of `config_read` (config.c:107-117): run the reader; any status other than `0`
or the `-EAGAIN` sentinel is returned at once, otherwise the section still open
is finalized. -/
def config_read (cb : Map → Int) (evs : List IniEvent) (endSt : Int) (st : PState) :
    Int × PState :=
  let r := ini_read (config_ini_section_cb cb) config_ini_property_cb endSt evs st
  if r.1 ≠ 0 ∧ r.1 ≠ -EAGAIN then r else config_finalize cb r.2

/-- Split a character list at every occurrence of `c`. -/
def splitOnChar (c : Char) : List Char → List (List Char)
  | [] => [[]]
  | x :: xs =>
      match splitOnChar c xs with
      | [] => if x = c then [[], []] else [[x]]
      | l :: ls => if x = c then [] :: l :: ls else (x :: l) :: ls

/-- Split a line at its first `=`. -/
def splitEq : List Char → Option (List Char × List Char)
  | [] => none
  | c :: rest =>
      if c = '=' then some ([], rest)
      else
        match splitEq rest with
        | some (k, v) => some (c :: k, v)
        | none => none

/-- Modelled from the spec: the INI tokenizer (`ini.c`) is not under `src/`.
A line `[S]` emits a section event and a line `K=V` emits a property event;
other lines (empty or malformed) emit nothing.  Only well-formed lines occur in
the inputs considered here. -/
def lineEvent (l : List Char) : Option IniEvent :=
  match l with
  | [] => none
  | '[' :: rest =>
      if rest.getLast? = some ']' then some (.sec (String.mk rest.dropLast)) else none
  | _ =>
      match splitEq l with
      | some (k, v) => some (.prop (String.mk k) (String.mk v))
      | none => none

/-- Modelled from the spec: the event stream of an input file's text. -/
def tokenize (s : String) : List IniEvent :=
  (splitOnChar '\n' s.data).filterMap lineEvent

/-! ### Characterization of one parsed file

`setAll`, `preFold`, `sectionExpected` and `fileTrace` describe, in closed
form, what the reset/finalize state machine of `config.c` computes; the
theorems below prove that the translated code realizes them. -/

/-- Fold a list of key/value writes into a store. -/
def setAll (m : Map) (ps : List (String × String)) : Map :=
  ps.foldl (fun a kv => map_set a kv.1 kv.2) m

/-- The global map after a list of preamble writes, mirroring `config_set`'s
create-on-first-use behaviour. -/
def preFold : Option Map → List (String × String) → Option Map
  | g, [] => g
  | g, kv :: ps => preFold (some (map_set (g.getD []) kv.1 kv.2)) ps

/-- The fresh section map made by `config_reset`: a copy of the global map when
one exists. -/
def resetMap (g : Option Map) : Map :=
  match g with
  | some m => map_copy [] m
  | none => []

/-- The map delivered for a section with header `n` and body writes `ps`,
given the global map `g` at section-open time. -/
def sectionExpected (g : Option Map) (n : String) (ps : List (String × String)) : Map :=
  setAll (map_set (resetMap g) "name" n) ps

/-- A well-formed input: a global preamble followed by named sections. -/
structure IniFile where
  preamble : List (String × String)
  sections : List (String × List (String × String))
  deriving Repr, DecidableEq

def sectionEvents (s : String × List (String × String)) : List IniEvent :=
  .sec s.1 :: s.2.map fun kv => .prop kv.1 kv.2

/-- The reader's event stream for a well-formed input. -/
def flatten (f : IniFile) : List IniEvent :=
  (f.preamble.map fun kv => .prop kv.1 kv.2) ++ (f.sections.map sectionEvents).flatten

/-- How many times the preamble writes allocate a global map. -/
def globDelta (g : Option Map) (ps : List (String × String)) : Nat :=
  match g, ps with
  | none, _ :: _ => 1
  | _, _ => 0

/-- The sequence of maps delivered to the callback for one file, given the
global map `g` inherited from earlier files. -/
def fileTrace (g : Option Map) (f : IniFile) : List Map :=
  f.sections.map fun s => sectionExpected (preFold g f.preamble) s.1 s.2

theorem setAll_nil (m : Map) : setAll m [] = m := rfl

theorem setAll_cons (m : Map) (kv : String × String) (ps : List (String × String)) :
    setAll m (kv :: ps) = setAll (map_set m kv.1 kv.2) ps := rfl

theorem map_copy_eq_setAll (d s : Map) : map_copy d s = setAll d s := rfl

/-- Reading a run of property events with a section open accumulates them into
the section map and touches nothing else. -/
theorem ini_read_props_open (cb : Map → Int) (e : Int) (ps : List (String × String))
    (g : Option Map) (s : Map) (t : List Map) (c d : Nat) :
    ini_read (config_ini_section_cb cb) config_ini_property_cb e
        (ps.map fun kv => .prop kv.1 kv.2) ⟨g, some s, t, c, d⟩ =
      (e, ⟨g, some (setAll s ps), t, c, d⟩) := by
  induction ps generalizing s with
  | nil => simp [ini_read, setAll]
  | cons kv rest ih =>
      simp only [List.map_cons, ini_read, config_ini_property_cb, config_set, setAll_cons]
      exact ih (map_set s kv.1 kv.2)

/-- Reading a run of property events with no section open accumulates them into
the global map, allocating it on first use. -/
theorem ini_read_props_global (cb : Map → Int) (e : Int) (ps : List (String × String))
    (g : Option Map) (t : List Map) (c d : Nat) :
    ini_read (config_ini_section_cb cb) config_ini_property_cb e
        (ps.map fun kv => .prop kv.1 kv.2) ⟨g, none, t, c, d⟩ =
      (e, ⟨preFold g ps, none, t, c + globDelta g ps, d⟩) := by
  induction ps generalizing g c with
  | nil => simp [ini_read, preFold, globDelta]
  | cons kv rest ih =>
      cases g with
      | some g0 =>
          simp only [List.map_cons, ini_read, config_ini_property_cb, config_set, preFold,
            globDelta]
          simpa using ih (some (map_set g0 kv.1 kv.2)) c
      | none =>
          simp only [List.map_cons, ini_read, config_ini_property_cb, config_set, preFold,
            globDelta]
          have h := ih (some (map_set [] kv.1 kv.2)) (c + 1)
          simpa [globDelta] using h

/-- A reader run that consumes `xs` without error continues into `ys`. -/
theorem ini_read_append (onS : String → PState → Int × PState)
    (onP : String → String → PState → Int × PState) (e : Int)
    (xs ys : List IniEvent) (st st1 : PState)
    (h : ini_read onS onP 0 xs st = (0, st1)) :
    ini_read onS onP e (xs ++ ys) st = ini_read onS onP e ys st1 := by
  induction xs generalizing st with
  | nil =>
      simp only [ini_read] at h
      cases h
      simp
  | cons ev rest ih =>
      cases ev with
      | sec n =>
          simp only [ini_read, List.cons_append] at h ⊢
          by_cases hc : (onS n st).1 ≠ 0
          · rw [if_pos hc] at h
            exact absurd (congrArg Prod.fst h) hc
          · rw [if_neg hc] at h ⊢
            exact ih _ h
      | prop k v =>
          simp only [ini_read, List.cons_append] at h ⊢
          by_cases hc : (onP k v st).1 ≠ 0
          · rw [if_pos hc] at h
            exact absurd (congrArg Prod.fst h) hc
          · rw [if_neg hc] at h ⊢
            exact ih _ h

/-- Stepping the reader over a section event whose handler succeeds. -/
theorem ini_read_sec_cons (onS : String → PState → Int × PState)
    (onP : String → String → PState → Int × PState) (e : Int) (n : String)
    (evs : List IniEvent) (st : PState) (h : (onS n st).1 = 0) :
    ini_read onS onP e (.sec n :: evs) st = ini_read onS onP e evs (onS n st).2 := by
  simp [ini_read, h]

/-- One section-start event: finalize the open section (delivering it), then
open a fresh copy of the globals carrying the new name. -/
theorem section_cb_step (cb : Map → Int) (hcb : ∀ m, cb m = 0) (n : String)
    (g so : Option Map) (t : List Map) (c d : Nat) :
    config_ini_section_cb cb n ⟨g, so, t, c, d⟩ =
      (0, ⟨g, some (map_set (resetMap g) "name" n), t ++ so.toList, c + 1, d⟩) := by
  cases so <;> cases g <;>
    simp [config_ini_section_cb, config_finalize, config_reset, config_set, resetMap, hcb]

/-- Reading the events of a section list delivers the pending section and then
each section's defaults-merged map, in order; the final `config_finalize`
delivers the last one. -/
theorem ini_read_sections (cb : Map → Int) (hcb : ∀ m, cb m = 0) (e : Int)
    (secs : List (String × List (String × String))) (g so : Option Map)
    (t : List Map) (c d : Nat) :
    ∃ stf : PState,
      ini_read (config_ini_section_cb cb) config_ini_property_cb e
          ((secs.map sectionEvents).flatten) ⟨g, so, t, c, d⟩ = (e, stf) ∧
      config_finalize cb stf =
        (0, ⟨g, none, t ++ so.toList ++ secs.map (fun s => sectionExpected g s.1 s.2),
             c + secs.length, d⟩) := by
  induction secs generalizing so t c with
  | nil =>
      refine ⟨⟨g, so, t, c, d⟩, by simp [ini_read], ?_⟩
      cases so with
      | none => simp [config_finalize]
      | some s => simp [config_finalize, hcb]
  | cons sc rest ih =>
      have hstep := section_cb_step cb hcb sc.1 g so t c d
      have hprops := ini_read_props_open cb 0 sc.2 g (map_set (resetMap g) "name" sc.1)
        (t ++ so.toList) (c + 1) d
      obtain ⟨stf, hrun, hfin⟩ :=
        ih (some (setAll (map_set (resetMap g) "name" sc.1) sc.2)) (t ++ so.toList) (c + 1)
      refine ⟨stf, ?_, ?_⟩
      · have hj : (((sc :: rest).map sectionEvents).flatten) =
            IniEvent.sec sc.1 ::
              ((sc.2.map fun kv => IniEvent.prop kv.1 kv.2) ++
                (rest.map sectionEvents).flatten) := rfl
        rw [hj, ini_read_sec_cons _ _ _ _ _ _ (by rw [hstep])]
        rw [show (config_ini_section_cb cb sc.1 ⟨g, so, t, c, d⟩).2 =
              (⟨g, some (map_set (resetMap g) "name" sc.1), t ++ so.toList, c + 1, d⟩ : PState)
            from by rw [hstep]]
        rw [ini_read_append _ _ e _ _ _ _ hprops]
        exact hrun
      · rw [hfin]
        simp [sectionExpected, List.append_assoc]
        omega

/-- Running `config_read` on the event stream of a well-formed file, with a callback
that accepts every section and a normal end of stream: it succeeds, appends
exactly the file's defaults-merged sections to the delivery trace, leaves the
accumulated global map, and closes the section. -/
theorem config_read_flatten (cb : Map → Int) (hcb : ∀ m, cb m = 0) (e : Int)
    (he : e = 0 ∨ e = -EAGAIN) (f : IniFile) (g : Option Map) (t : List Map) (c d : Nat) :
    config_read cb (flatten f) e ⟨g, none, t, c, d⟩ =
      (0, ⟨preFold g f.preamble, none, t ++ fileTrace g f,
           c + globDelta g f.preamble + f.sections.length, d⟩) := by
  have h1 := ini_read_props_global cb 0 f.preamble g t c d
  obtain ⟨stf, h2, h3⟩ := ini_read_sections cb hcb e f.sections (preFold g f.preamble) none t
    (c + globDelta g f.preamble) d
  have key : ini_read (config_ini_section_cb cb) config_ini_property_cb e (flatten f)
      ⟨g, none, t, c, d⟩ = (e, stf) := by
    rw [flatten, ini_read_append _ _ e _ _ _ _ h1]
    exact h2
  simp only [config_read, key]
  rcases he with rfl | rfl
  · have h0 : ¬(((0 : Int) ≠ 0) ∧ ((0 : Int) ≠ -EAGAIN)) := by simp
    rw [if_neg h0]
    simpa [fileTrace] using h3
  · have h0 : ¬((-EAGAIN ≠ 0) ∧ (-EAGAIN ≠ -EAGAIN)) := by simp
    rw [if_neg h0]
    simpa [fileTrace] using h3

/-! ### Lookup lemmas for the key/value store -/

theorem map_get_set_self (m : Map) (k v : String) : map_get (map_set m k v) k = some v := by
  induction m with
  | nil => simp [map_set, map_get]
  | cons kv rest ih =>
      obtain ⟨k0, v0⟩ := kv
      by_cases h : k0 = k
      · simp [map_set, map_get, h]
      · simp [map_set, map_get, h, ih]

theorem map_get_set_ne (m : Map) (k v k' : String) (h : k' ≠ k) :
    map_get (map_set m k v) k' = map_get m k' := by
  have h' : ¬(k = k') := fun hh => h hh.symm
  induction m with
  | nil => simp [map_set, map_get, h']
  | cons kv rest ih =>
      obtain ⟨k0, v0⟩ := kv
      by_cases hk : k0 = k
      · subst hk
        simp [map_set, map_get, h']
      · simp [map_set, map_get, hk, ih]

theorem isSome_map_get_set (m : Map) (k v k' : String)
    (h : (map_get m k').isSome) : (map_get (map_set m k v) k').isSome := by
  by_cases hk : k' = k
  · subst hk
    simp [map_get_set_self]
  · rwa [map_get_set_ne m k v k' hk]

theorem map_get_setAll_notmem (ps : List (String × String)) (m : Map) (k : String)
    (h : k ∉ ps.map Prod.fst) : map_get (setAll m ps) k = map_get m k := by
  induction ps generalizing m with
  | nil => rfl
  | cons kv rest ih =>
      simp only [List.map_cons, List.mem_cons, not_or] at h
      rw [setAll_cons, ih _ h.2, map_get_set_ne _ _ _ _ h.1]

theorem isSome_map_get_setAll (ps : List (String × String)) (m : Map) (k : String)
    (h : (map_get m k).isSome) : (map_get (setAll m ps) k).isSome := by
  induction ps generalizing m with
  | nil => exact h
  | cons kv rest ih => exact ih _ (isSome_map_get_set _ _ _ _ h)

theorem mem_keys_map_set (m : Map) (k v k' : String)
    (h : k' ∈ (map_set m k v).map Prod.fst) : k' ∈ m.map Prod.fst ∨ k' = k := by
  induction m with
  | nil => simpa [map_set] using h
  | cons kv rest ih =>
      obtain ⟨k0, v0⟩ := kv
      by_cases hk : k0 = k
      · simp only [map_set, if_pos hk, List.map_cons, List.mem_cons] at h
        rcases h with h | h
        · exact Or.inr h
        · exact Or.inl (List.mem_cons_of_mem _ h)
      · simp only [map_set, if_neg hk, List.map_cons, List.mem_cons] at h
        rcases h with h | h
        · exact Or.inl (by simp [h])
        · rcases ih h with h' | h'
          · exact Or.inl (List.mem_cons_of_mem _ h')
          · exact Or.inr h'

theorem nodup_keys_map_set (m : Map) (k v : String)
    (h : (m.map Prod.fst).Nodup) : ((map_set m k v).map Prod.fst).Nodup := by
  induction m with
  | nil => simp [map_set]
  | cons kv rest ih =>
      obtain ⟨k0, v0⟩ := kv
      simp only [List.map_cons, List.nodup_cons] at h
      by_cases hk : k0 = k
      · subst hk
        simpa [map_set] using h
      · simp only [map_set, if_neg hk, List.map_cons, List.nodup_cons]
        refine ⟨fun hmem => ?_, ih h.2⟩
        rcases mem_keys_map_set _ _ _ _ hmem with h' | h'
        · exact h.1 h'
        · exact hk h'

theorem nodup_keys_setAll (ps : List (String × String)) (m : Map)
    (h : (m.map Prod.fst).Nodup) : ((setAll m ps).map Prod.fst).Nodup := by
  induction ps generalizing m with
  | nil => exact h
  | cons kv rest ih => exact ih _ (nodup_keys_map_set _ _ _ h)

theorem preFold_some (m : Map) (ps : List (String × String)) :
    preFold (some m) ps = some (setAll m ps) := by
  induction ps generalizing m with
  | nil => rfl
  | cons kv rest ih => simp [preFold, setAll_cons, ih]

theorem preFold_none_getD (ps : List (String × String)) :
    (preFold none ps).getD [] = setAll [] ps := by
  cases ps with
  | nil => rfl
  | cons kv rest => simp [preFold, preFold_some, setAll_cons]

theorem nodup_keys_preFold_none (ps : List (String × String)) :
    (((preFold none ps).getD []).map Prod.fst).Nodup := by
  rw [preFold_none_getD]
  exact nodup_keys_setAll ps [] (by simp)

theorem map_get_none_of_notmem (m : Map) (k : String) (h : k ∉ m.map Prod.fst) :
    map_get m k = none := by
  induction m with
  | nil => rfl
  | cons kv rest ih =>
      obtain ⟨k0, v0⟩ := kv
      simp only [List.map_cons, List.mem_cons, not_or] at h
      have h0 : ¬(k0 = k) := fun hh => h.1 hh.symm
      simp [map_get, h0, ih h.2]

/-- A copy of a duplicate-free store preserves every binding. -/
theorem map_get_setAll_mem (src : Map) (m : Map) (k v : String)
    (hnd : (src.map Prod.fst).Nodup) (h : map_get src k = some v) :
    map_get (setAll m src) k = some v := by
  induction src generalizing m with
  | nil => simp [map_get] at h
  | cons kv rest ih =>
      obtain ⟨k0, v0⟩ := kv
      simp only [List.map_cons, List.nodup_cons] at hnd
      by_cases hk : k0 = k
      · subst hk
        simp only [map_get, if_pos rfl] at h
        cases h
        rw [setAll_cons, map_get_setAll_notmem rest _ k0 hnd.1, map_get_set_self]
      · simp only [map_get, if_neg hk] at h
        rw [setAll_cons]
        exact ih _ hnd.2 h

theorem resetMap_get (g : Option Map) (k v : String)
    (hnd : ((g.getD []).map Prod.fst).Nodup) (h : map_get (g.getD []) k = some v) :
    map_get (resetMap g) k = some v := by
  cases g with
  | none => simp [map_get] at h
  | some m =>
      simp only [Option.getD] at hnd h
      rw [resetMap, map_copy_eq_setAll]
      exact map_get_setAll_mem m [] k v hnd h

/-- C2: for every well-formed input with `N` sections and any global preamble,
parsing with an accepting callback succeeds and invokes the callback exactly
`N` times (so an empty file yields zero invocations and success, and a
preamble with no following section is never delivered); every delivered map
contains each preamble key, with the preamble's value unless the section (or
the `"name"` assignment) overwrote it. -/
theorem c2_preamble_merge (f : IniFile) (cb : Map → Int) (e : Int)
    (hcb : ∀ m, cb m = 0) (he : e = 0 ∨ e = -EAGAIN) :
    (config_read cb (flatten f) e initState).1 = 0 ∧
    (config_read cb (flatten f) e initState).2.trace = fileTrace none f ∧
    (config_read cb (flatten f) e initState).2.trace.length = f.sections.length ∧
    ∀ s ∈ f.sections, ∀ k,
      (map_get ((preFold none f.preamble).getD []) k).isSome →
      (map_get (sectionExpected (preFold none f.preamble) s.1 s.2) k).isSome ∧
      (k ≠ "name" → k ∉ s.2.map Prod.fst →
        map_get (sectionExpected (preFold none f.preamble) s.1 s.2) k =
          map_get ((preFold none f.preamble).getD []) k) := by
  have hrun := config_read_flatten cb hcb e he f none [] 0 0
  have h0 : initState = (⟨none, none, [], 0, 0⟩ : PState) := rfl
  refine ⟨by rw [h0, hrun], by rw [h0, hrun]; simp, by rw [h0, hrun]; simp [fileTrace], ?_⟩
  intro s _ k hsome
  obtain ⟨v, hv⟩ := Option.isSome_iff_exists.mp hsome
  have hnd := nodup_keys_preFold_none f.preamble
  have hreset : map_get (resetMap (preFold none f.preamble)) k = some v :=
    resetMap_get _ k v hnd hv
  constructor
  · refine isSome_map_get_setAll _ _ _ ?_
    exact isSome_map_get_set _ _ _ _ (by simp [hreset])
  · intro hname hmem
    rw [sectionExpected, map_get_setAll_notmem _ _ _ hmem,
      map_get_set_ne _ _ _ _ hname, hreset, hv]

/-- Witness for C2 at a concrete file: one preamble key, one section. -/
theorem c2_preamble_merge_witness :
    (∀ m : Map, (fun _ : Map => (0 : Int)) m = 0) ∧
    ((-EAGAIN : Int) = 0 ∨ (-EAGAIN : Int) = -EAGAIN) ∧
    (config_read (fun _ => 0) (flatten ⟨[("g", "1")], [("A", [("k", "v")])]⟩) (-EAGAIN)
        initState).2.trace = fileTrace none ⟨[("g", "1")], [("A", [("k", "v")])]⟩ ∧
    fileTrace none ⟨[("g", "1")], [("A", [("k", "v")])]⟩ =
      [[("g", "1"), ("name", "A"), ("k", "v")]] :=
  ⟨fun _ => rfl, Or.inr rfl,
    (c2_preamble_merge ⟨[("g", "1")], [("A", [("k", "v")])]⟩ (fun _ => 0) (-EAGAIN)
      (fun _ => rfl) (Or.inr rfl)).2.1, rfl⟩

/-! ### Status propagation -/

/-- The status of `config_finalize` is `0` or a callback verdict. -/
theorem config_finalize_status (cb : Map → Int) (st : PState) :
    (config_finalize cb st).1 = 0 ∨ ∃ m, (config_finalize cb st).1 = cb m := by
  unfold config_finalize
  cases st.sect with
  | none => exact Or.inl rfl
  | some s =>
      by_cases h : cb s ≠ 0
      · exact Or.inr ⟨s, by simp [h]⟩
      · exact Or.inl (by simp [h])

/-- A section-start handler error is always a callback verdict. -/
theorem config_ini_section_cb_status (cb : Map → Int) (n : String) (st : PState) :
    (config_ini_section_cb cb n st).1 = 0 ∨
    ∃ m, (config_ini_section_cb cb n st).1 = cb m := by
  unfold config_ini_section_cb
  by_cases h : (config_finalize cb st).1 ≠ 0
  · rw [if_pos h]
    rcases config_finalize_status cb st with h0 | ⟨m, hm⟩
    · exact absurd h0 h
    · exact Or.inr ⟨m, hm⟩
  · rw [if_neg h]
    exact Or.inl rfl

/-- The reader returns its end status or a callback verdict. -/
theorem ini_read_status (cb : Map → Int) (e : Int) (evs : List IniEvent) (st : PState) :
    (ini_read (config_ini_section_cb cb) config_ini_property_cb e evs st).1 = e ∨
    ∃ m, (ini_read (config_ini_section_cb cb) config_ini_property_cb e evs st).1 = cb m := by
  induction evs generalizing st with
  | nil => exact Or.inl rfl
  | cons ev rest ih =>
      cases ev with
      | sec n =>
          unfold ini_read
          by_cases hc : (config_ini_section_cb cb n st).1 ≠ 0
          · rw [if_pos hc]
            rcases config_ini_section_cb_status cb n st with h0 | ⟨m, hm⟩
            · exact absurd h0 hc
            · exact Or.inr ⟨m, hm⟩
          · rw [if_neg hc]
            exact ih _
      | prop k v =>
          unfold ini_read
          rw [if_neg (by simp [config_ini_property_cb])]
          exact ih _

/-- The status of `config_read` is `0`, the reader's end status, or a callback verdict. -/
theorem config_read_status (cb : Map → Int) (evs : List IniEvent) (e : Int) (st : PState) :
    (config_read cb evs e st).1 = 0 ∨ (config_read cb evs e st).1 = e ∨
    ∃ m, (config_read cb evs e st).1 = cb m := by
  simp only [config_read]
  split
  · rcases ini_read_status cb e evs st with h0 | ⟨m, hm⟩
    · exact Or.inr (Or.inl h0)
    · exact Or.inr (Or.inr ⟨m, hm⟩)
  · rcases config_finalize_status cb
        (ini_read (config_ini_section_cb cb) config_ini_property_cb e evs st).2 with
      h0 | ⟨m, hm⟩
    · exact Or.inl h0
    · exact Or.inr (Or.inr ⟨m, hm⟩)

/-- C4: `config_read` returns any reader status other than success or the
`-EAGAIN` end-of-stream sentinel unchanged, without finalizing; a `0` or
`-EAGAIN` reader status is followed by `config_finalize`, so an `-EAGAIN`
terminated stream counts as success and a section still open is delivered to
the callback and closed. -/
theorem c4_eagain_is_success (cb : Map → Int) (evs : List IniEvent) (endSt : Int)
    (st : PState) (r : Int × PState)
    (hr : r = ini_read (config_ini_section_cb cb) config_ini_property_cb endSt evs st) :
    (r.1 ≠ 0 → r.1 ≠ -EAGAIN → config_read cb evs endSt st = r) ∧
    (r.1 = 0 ∨ r.1 = -EAGAIN → config_read cb evs endSt st = config_finalize cb r.2) ∧
    (∀ m, r.1 = -EAGAIN → r.2.sect = some m → cb m = 0 →
      (config_read cb evs endSt st).1 = 0 ∧
      (config_read cb evs endSt st).2.trace = r.2.trace ++ [m] ∧
      (config_read cb evs endSt st).2.sect = none) := by
  subst hr
  refine ⟨?_, ?_, ?_⟩
  · intro h1 h2
    simp only [config_read]
    rw [if_pos ⟨h1, h2⟩]
  · intro h
    simp only [config_read]
    rcases h with h | h
    · rw [if_neg (by simp [h])]
    · rw [if_neg (by simp [h])]
  · intro m he hs hcbm
    have hread : config_read cb evs endSt st =
        config_finalize cb
          (ini_read (config_ini_section_cb cb) config_ini_property_cb endSt evs st).2 := by
      simp only [config_read]
      rw [if_neg (by simp [he])]
    rw [hread]
    simp [config_finalize, hs, hcbm]

/-- Witness for C4: a one-section stream ending in the `-EAGAIN` sentinel is a
success and the open section is delivered. -/
theorem c4_eagain_is_success_witness :
    (config_read (fun _ => 0) [IniEvent.sec "A"] (-EAGAIN) initState).1 = 0 ∧
    (config_read (fun _ => 0) [IniEvent.sec "A"] (-EAGAIN) initState).2.trace =
      (ini_read (config_ini_section_cb (fun _ => 0)) config_ini_property_cb (-EAGAIN)
          [IniEvent.sec "A"] initState).2.trace ++ [[("name", "A")]] ∧
    (config_read (fun _ => 0) [IniEvent.sec "A"] (-EAGAIN) initState).2.sect = none :=
  (c4_eagain_is_success (fun _ => 0) [IniEvent.sec "A"] (-EAGAIN) initState _ rfl).2.2
    [("name", "A")] rfl rfl rfl

/-- Running `config_reset` only installs a fresh copy of the globals as the section. -/
theorem config_reset_sect (st : PState) :
    config_reset st = { st with sect := some (resetMap st.global),
                                created := st.created + 1 } := by
  cases hg : st.global <;> simp [config_reset, resetMap, hg]

/-- C9: whenever a section-start event is handled successfully, the new
section map's `"name"` entry is that section's header name — even when the
global defaults contain a key named `"name"`, since the name write happens
after the copy of the globals and overwrites it. -/
theorem c9_name_overwrites_default (cb : Map → Int) (n : String) (st : PState)
    (h : (config_ini_section_cb cb n st).1 = 0) :
    ∃ m, (config_ini_section_cb cb n st).2.sect = some m ∧ map_get m "name" = some n := by
  unfold config_ini_section_cb at h ⊢
  by_cases hf : (config_finalize cb st).1 ≠ 0
  · rw [if_pos hf] at h
    exact absurd h hf
  · rw [if_neg hf]
    refine ⟨map_set (resetMap (config_finalize cb st).2.global) "name" n, ?_,
      map_get_set_self _ _ _⟩
    rw [config_reset_sect]
    simp [config_set]

/-- Witness for C9: the globals already bind `"name"`, and the new section
still carries the header name. -/
theorem c9_name_overwrites_default_witness :
    ∃ m, (config_ini_section_cb (fun _ => 0) "S"
        ⟨some [("name", "G")], none, [], 0, 0⟩).2.sect = some m ∧
      map_get m "name" = some "S" :=
  c9_name_overwrites_default (fun _ => 0) "S" ⟨some [("name", "G")], none, [], 0, 0⟩ rfl

/-! ### File resolution: `config_open`, `config_load` -/

/-- Modelled from the spec: the OS access shim (`sys.c`, libc) is not under
`src/`.  `openf` returns a negative errno, or the opened file's reader events
together with the reader's end-of-stream status; `chdir` returns a status;
`getenv` reads the environment; `readdir` lists a directory's entries, in
arbitrary order, or fails. -/
structure Sys where
  getenv : String → Option String
  openf : String → Except Int (List IniEvent × Int)
  chdir : String → Int
  readdir : String → Option (List String)

/-- The containing directory handed to `chdir` (`dirname(3)`, approximated for
ordinary paths; no claim constrains its value). -/
def dirname (p : String) : String :=
  let parts := p.splitOn "/"
  if parts.length ≤ 1 then "." else String.intercalate "/" parts.dropLast

/-- Model of `config_open` (config.c:119-150): open the file, change into its
directory, parse, and in single mode destroy the global map when present (the
struct keeps pointing at it, as in the C).  The boolean records whether the
open itself succeeded. -/
def config_open (sys : Sys) (cb : Map → Int) (st : PState) (path : String)
    (single_mode : Bool) : Int × PState × Bool :=
  match sys.openf path with
  | .error e => (e, st, false)
  | .ok file =>
      if sys.chdir (dirname path) ≠ 0 then (sys.chdir (dirname path), st, true)
      else
        let r := config_read cb file.1 file.2 st
        (r.1,
         if single_mode ∧ r.2.global.isSome then
           { r.2 with destroyed := r.2.destroyed + 1 }
         else r.2,
         true)

def SYSCONFDIR : String := "/etc"

/-- The outcome of `config_load`: its status, final parser state, the paths
passed to `sys_open` in order, and those the open succeeded on. -/
structure LoadRes where
  status : Int
  st : PState
  attempts : List String
  loaded : List String
  deriving Repr, DecidableEq

/-- Model of `config_load`, system-candidate tail (config.c:185-195): the XDG system
directory path (or the compiled-in default), then the compiled-in fallback
file, whose result is returned as is. -/
def config_load_system (sys : Sys) (cb : Map → Int) (st : PState)
    (att ld : List String) : LoadRes :=
  let c3p := match sys.getenv "XDG_CONFIG_DIRS" with
    | some xd => xd ++ "/i3xrocks/config"
    | none => SYSCONFDIR ++ "/xdg/i3xrocks/config"
  let r3 := config_open sys cb st c3p true
  let ld3 := ld ++ (if r3.2.2 then [c3p] else [])
  if r3.1 ≠ -ENOENT then ⟨r3.1, r3.2.1, att ++ [c3p], ld3⟩
  else
    let c4p := SYSCONFDIR ++ "/i3xrocks.conf"
    let r4 := config_open sys cb r3.2.1 c4p true
    ⟨r4.1, r4.2.1, att ++ [c3p, c4p], ld3 ++ (if r4.2.2 then [c4p] else [])⟩

/-- Model of `config_load` (config.c:152-196): an explicit path is tried alone; else
the user candidates when `HOME` is set, falling through to the system
candidates; an `-ENOENT` result moves to the next candidate, anything else is
returned at once. -/
def config_load (sys : Sys) (cb : Map → Int) (path : Option String) : LoadRes :=
  match path with
  | some p =>
      let r := config_open sys cb initState p true
      ⟨r.1, r.2.1, [p], if r.2.2 then [p] else []⟩
  | none =>
      match sys.getenv "HOME" with
      | none => config_load_system sys cb initState [] []
      | some home =>
          let c1p := match sys.getenv "XDG_CONFIG_HOME" with
            | some xh => xh ++ "/i3xrocks/config"
            | none => home ++ "/.config/i3xrocks/config"
          let r1 := config_open sys cb initState c1p true
          let ld1 := if r1.2.2 then [c1p] else []
          if r1.1 ≠ -ENOENT then ⟨r1.1, r1.2.1, [c1p], ld1⟩
          else
            let c2p := home ++ "/.i3xrocks.conf"
            let r2 := config_open sys cb r1.2.1 c2p true
            let ld2 := ld1 ++ (if r2.2.2 then [c2p] else [])
            if r2.1 ≠ -ENOENT then ⟨r2.1, r2.2.1, [c1p, c2p], ld2⟩
            else config_load_system sys cb r2.2.1 [c1p, c2p] ld2

theorem etc_xdg_path : SYSCONFDIR ++ "/xdg/i3xrocks/config" = "/etc/xdg/i3xrocks/config" := rfl

theorem etc_conf_path : SYSCONFDIR ++ "/i3xrocks.conf" = "/etc/i3xrocks.conf" := rfl

/-- Behaviour of `config_open` on a file that opens, when `chdir` succeeds. -/
theorem config_open_ok (sys : Sys) (cb : Map → Int) (st : PState) (p : String)
    (sm : Bool) (evs : List IniEvent) (endSt : Int)
    (hopen : sys.openf p = .ok (evs, endSt)) (hch : ∀ dn, sys.chdir dn = 0) :
    config_open sys cb st p sm =
      ((config_read cb evs endSt st).1,
       (if sm ∧ (config_read cb evs endSt st).2.global.isSome then
          { (config_read cb evs endSt st).2 with
              destroyed := (config_read cb evs endSt st).2.destroyed + 1 }
        else (config_read cb evs endSt st).2),
       true) := by
  unfold config_open
  rw [hopen]
  simp [hch]

/-- A successfully opened candidate never reports `-ENOENT` (provided neither
the reader's end status nor the callback uses that value). -/
theorem config_open_ok_status (sys : Sys) (cb : Map → Int) (st : PState) (p : String)
    (sm : Bool) (evs : List IniEvent) (endSt : Int)
    (hopen : sys.openf p = .ok (evs, endSt)) (hch : ∀ dn, sys.chdir dn = 0)
    (hcb : ∀ m, cb m ≠ -ENOENT) (hend : endSt ≠ -ENOENT) :
    (config_open sys cb st p sm).1 ≠ -ENOENT ∧ (config_open sys cb st p sm).2.2 = true := by
  rw [config_open_ok sys cb st p sm evs endSt hopen hch]
  refine ⟨?_, rfl⟩
  rcases config_read_status cb evs endSt st with h | h | ⟨m, hm⟩
  · rw [h]; decide
  · rw [h]; exact hend
  · rw [hm]; exact hcb m

/-- C6: with an explicit path exactly one open attempt occurs and no fallback
candidate is tried: the candidate's own status is returned directly, and in
particular a not-found open failure yields `-ENOENT` with nothing loaded. -/
theorem c6_explicit_path_terminal (sys : Sys) (cb : Map → Int) (p : String) :
    (config_load sys cb (some p)).attempts = [p] ∧
    (config_load sys cb (some p)).status = (config_open sys cb initState p true).1 ∧
    (∀ e : Int, sys.openf p = .error e →
      (config_load sys cb (some p)).status = e ∧
      (config_load sys cb (some p)).loaded = []) := by
  refine ⟨rfl, rfl, ?_⟩
  intro e he
  simp [config_load, config_open, he]

def sys_c6 : Sys :=
  ⟨fun _ => none, fun _ => .error (-ENOENT), fun _ => 0, fun _ => none⟩

/-- Witness for C6: an explicit path that does not exist. -/
theorem c6_explicit_path_terminal_witness :
    (config_load sys_c6 (fun _ => 0) (some "/cfg")).attempts = ["/cfg"] ∧
    (config_load sys_c6 (fun _ => 0) (some "/cfg")).status = -ENOENT ∧
    (config_load sys_c6 (fun _ => 0) (some "/cfg")).loaded = [] := by
  have h := c6_explicit_path_terminal sys_c6 (fun _ => 0) "/cfg"
  exact ⟨h.1, (h.2.2 (-ENOENT) rfl).1, (h.2.2 (-ENOENT) rfl).2⟩

/-- C5: with no explicit path, no `HOME` and no XDG variables, exactly the two
system candidates can be attempted, in order; `-ENOENT` on the first moves to
the second, whose result is final; any other open failure of the first is
returned with nothing loaded; and a first candidate that opens is the only one
attempted and loaded. -/
theorem c5_system_fallback_order (sys : Sys) (cb : Map → Int)
    (hH : sys.getenv "HOME" = none)
    (hXD : sys.getenv "XDG_CONFIG_DIRS" = none) :
    ((config_load sys cb none).attempts = ["/etc/xdg/i3xrocks/config"] ∨
      (config_load sys cb none).attempts =
        ["/etc/xdg/i3xrocks/config", "/etc/i3xrocks.conf"]) ∧
    (sys.openf "/etc/xdg/i3xrocks/config" = .error (-ENOENT) →
      (config_load sys cb none).attempts =
        ["/etc/xdg/i3xrocks/config", "/etc/i3xrocks.conf"] ∧
      (config_load sys cb none).status =
        (config_open sys cb initState "/etc/i3xrocks.conf" true).1 ∧
      (config_load sys cb none).loaded =
        (if (config_open sys cb initState "/etc/i3xrocks.conf" true).2.2 then
          ["/etc/i3xrocks.conf"] else [])) ∧
    (∀ e : Int, sys.openf "/etc/xdg/i3xrocks/config" = .error e → e ≠ -ENOENT →
      (config_load sys cb none).attempts = ["/etc/xdg/i3xrocks/config"] ∧
      (config_load sys cb none).status = e ∧
      (config_load sys cb none).loaded = []) ∧
    (∀ (evs : List IniEvent) (endSt : Int),
      sys.openf "/etc/xdg/i3xrocks/config" = .ok (evs, endSt) → endSt ≠ -ENOENT →
      (∀ dn, sys.chdir dn = 0) → (∀ m, cb m ≠ -ENOENT) →
      (config_load sys cb none).attempts = ["/etc/xdg/i3xrocks/config"] ∧
      (config_load sys cb none).loaded = ["/etc/xdg/i3xrocks/config"]) := by
  have hload : config_load sys cb none =
      config_load_system sys cb initState [] [] := by
    simp [config_load, hH]
  refine ⟨?_, ?_, ?_, ?_⟩
  · rw [hload]
    simp only [config_load_system, hXD, etc_xdg_path, etc_conf_path]
    by_cases hr : (config_open sys cb initState "/etc/xdg/i3xrocks/config" true).1 ≠ -ENOENT
    · rw [if_pos hr]
      exact Or.inl rfl
    · rw [if_neg hr]
      exact Or.inr rfl
  · intro hfirst
    have h1 : config_open sys cb initState "/etc/xdg/i3xrocks/config" true =
        (-ENOENT, initState, false) := by
      simp [config_open, hfirst]
    rw [hload]
    simp only [config_load_system, hXD, etc_xdg_path, etc_conf_path, h1]
    simp
  · intro e he hne
    have h1 : config_open sys cb initState "/etc/xdg/i3xrocks/config" true =
        (e, initState, false) := by
      simp [config_open, he]
    rw [hload]
    simp only [config_load_system, hXD, etc_xdg_path, etc_conf_path, h1]
    simp [hne]
  · intro evs endSt hopen hend hch hcb
    obtain ⟨hne, hop⟩ := config_open_ok_status sys cb initState "/etc/xdg/i3xrocks/config"
      true evs endSt hopen hch hcb hend
    rw [hload]
    simp only [config_load_system, hXD, etc_xdg_path, etc_conf_path]
    rw [if_pos hne]
    simp [hop]

def sys_c5 : Sys :=
  ⟨fun _ => none,
   fun p => if p = "/etc/xdg/i3xrocks/config" then .error (-ENOENT)
            else .ok ([IniEvent.sec "A"], -EAGAIN),
   fun _ => 0, fun _ => none⟩

/-- Witness for C5: the first system candidate is absent, the second exists
and is loaded. -/
theorem c5_system_fallback_order_witness :
    (config_load sys_c5 (fun _ => 0) none).attempts =
      ["/etc/xdg/i3xrocks/config", "/etc/i3xrocks.conf"] ∧
    (config_load sys_c5 (fun _ => 0) none).status =
      (config_open sys_c5 (fun _ => 0) initState "/etc/i3xrocks.conf" true).1 ∧
    (config_load sys_c5 (fun _ => 0) none).loaded =
      (if (config_open sys_c5 (fun _ => 0) initState "/etc/i3xrocks.conf" true).2.2 then
        ["/etc/i3xrocks.conf"] else []) :=
  (c5_system_fallback_order sys_c5 (fun _ => 0) rfl rfl).2.1 rfl

/-- C10: `XDG_CONFIG_DIRS` is used verbatim as a single directory prefix for
exactly one candidate (`<value>/i3xrocks/config`); even a colon-separated
value is never split, and the only further candidate is the compiled-in
fallback file. -/
theorem c10_xdg_dirs_verbatim (sys : Sys) (cb : Map → Int) (dirs : String)
    (hH : sys.getenv "HOME" = none)
    (hXD : sys.getenv "XDG_CONFIG_DIRS" = some dirs) :
    (config_load sys cb none).attempts.head? = some (dirs ++ "/i3xrocks/config") ∧
    ((config_load sys cb none).attempts = [dirs ++ "/i3xrocks/config"] ∨
      (config_load sys cb none).attempts =
        [dirs ++ "/i3xrocks/config", "/etc/i3xrocks.conf"]) := by
  have hload : config_load sys cb none =
      config_load_system sys cb initState [] [] := by
    simp [config_load, hH]
  rw [hload]
  simp only [config_load_system, hXD, etc_conf_path]
  by_cases hr : (config_open sys cb initState (dirs ++ "/i3xrocks/config") true).1 ≠ -ENOENT
  · rw [if_pos hr]
    exact ⟨rfl, Or.inl rfl⟩
  · rw [if_neg hr]
    exact ⟨rfl, Or.inr rfl⟩

def sys_c10 : Sys :=
  ⟨fun v => if v = "XDG_CONFIG_DIRS" then some "/a:/b" else none,
   fun _ => .error (-ENOENT), fun _ => 0, fun _ => none⟩

/-- Witness for C10: a colon-separated `XDG_CONFIG_DIRS` yields a single
verbatim candidate, not one per component. -/
theorem c10_xdg_dirs_verbatim_witness :
    (config_load sys_c10 (fun _ => 0) none).attempts.head? =
      some ("/a:/b" ++ "/i3xrocks/config") ∧
    ((config_load sys_c10 (fun _ => 0) none).attempts = ["/a:/b" ++ "/i3xrocks/config"] ∨
      (config_load sys_c10 (fun _ => 0) none).attempts =
        ["/a:/b" ++ "/i3xrocks/config", "/etc/i3xrocks.conf"]) :=
  c10_xdg_dirs_verbatim sys_c10 (fun _ => 0) "/a:/b" rfl rfl

/-! ### Directory mode: `config_dir_load` -/

/-- Modelled from the spec: the byte-wise `strcmp` order that `alphasort`
sorts directory entries with. -/
def strLe : List Char → List Char → Bool
  | [], _ => true
  | _ :: _, [] => false
  | c1 :: r1, c2 :: r2 =>
      if c1.toNat < c2.toNat then true
      else if c2.toNat < c1.toNat then false
      else strLe r1 r2

theorem strLe_total (a b : List Char) (h : strLe a b = false) : strLe b a = true := by
  induction a generalizing b with
  | nil => simp [strLe] at h
  | cons c1 r1 ih =>
      cases b with
      | nil => rfl
      | cons c2 r2 =>
          by_cases h12 : c1.toNat < c2.toNat
          · simp [strLe, h12] at h
          · by_cases h21 : c2.toNat < c1.toNat
            · simp [strLe, h21]
            · have hr : strLe r1 r2 = false := by simpa [strLe, h12, h21] using h
              simp [strLe, h12, h21, ih r2 hr]

theorem strLe_trans (a b c : List Char) (hab : strLe a b = true)
    (hbc : strLe b c = true) : strLe a c = true := by
  induction a generalizing b c with
  | nil => rfl
  | cons c1 r1 ih =>
      cases b with
      | nil => simp [strLe] at hab
      | cons c2 r2 =>
          cases c with
          | nil => simp [strLe] at hbc
          | cons c3 r3 =>
              by_cases h12 : c1.toNat < c2.toNat
              · by_cases h23 : c2.toNat < c3.toNat
                · have h13 : c1.toNat < c3.toNat := Nat.lt_trans h12 h23
                  simp [strLe, h13]
                · by_cases h32 : c3.toNat < c2.toNat
                  · simp [strLe, h23, h32] at hbc
                  · have h13 : c1.toNat < c3.toNat := by omega
                    simp [strLe, h13]
              · by_cases h21 : c2.toNat < c1.toNat
                · simp [strLe, h12, h21] at hab
                · by_cases h23 : c2.toNat < c3.toNat
                  · have h13 : c1.toNat < c3.toNat := by omega
                    simp [strLe, h13]
                  · by_cases h32 : c3.toNat < c2.toNat
                    · simp [strLe, h23, h32] at hbc
                    · have hr12 : strLe r1 r2 = true := by
                        simpa [strLe, h12, h21] using hab
                      have hr23 : strLe r2 r3 = true := by
                        simpa [strLe, h23, h32] using hbc
                      have h13 : ¬c1.toNat < c3.toNat := by omega
                      have h31 : ¬c3.toNat < c1.toNat := by omega
                      simp [strLe, h13, h31, ih r2 r3 hr12 hr23]

/-- Modelled from the spec: `scandir(3)` with `alphasort` (libc, not under
`src/`) returns the directory entries sorted in the `strcmp` order; realized
as an insertion sort over the raw entry list. -/
def insertSorted (s : String) : List String → List String
  | [] => [s]
  | x :: xs => if strLe s.data x.data then s :: x :: xs else x :: insertSorted s xs

def alphasort (l : List String) : List String := l.foldr insertSorted []

theorem mem_insertSorted (s b : String) (l : List String) :
    b ∈ insertSorted s l ↔ b = s ∨ b ∈ l := by
  induction l with
  | nil => simp [insertSorted]
  | cons x xs ih =>
      by_cases hle : strLe s.data x.data = true
      · simp [insertSorted, hle]
      · simp only [insertSorted, if_neg hle, List.mem_cons, ih]
        tauto

theorem insertSorted_pairwise (s : String) (l : List String)
    (h : l.Pairwise (fun a b => strLe a.data b.data = true)) :
    (insertSorted s l).Pairwise (fun a b => strLe a.data b.data = true) := by
  induction l with
  | nil => simp [insertSorted]
  | cons x xs ih =>
      rw [List.pairwise_cons] at h
      by_cases hle : strLe s.data x.data = true
      · rw [insertSorted, if_pos hle]
        refine List.Pairwise.cons ?_ (List.Pairwise.cons h.1 h.2)
        intro b hb
        rcases List.mem_cons.mp hb with rfl | hb
        · exact hle
        · exact strLe_trans _ _ _ hle (h.1 b hb)
      · rw [insertSorted, if_neg hle]
        rw [Bool.not_eq_true] at hle
        refine List.Pairwise.cons ?_ (ih h.2)
        intro b hb
        rcases (mem_insertSorted s b xs).mp hb with rfl | hb
        · exact strLe_total _ _ hle
        · exact h.1 b hb

theorem alphasort_pairwise (l : List String) :
    (alphasort l).Pairwise (fun a b => strLe a.data b.data = true) := by
  induction l with
  | nil => simp [alphasort]
  | cons x xs ih => exact insertSorted_pairwise x (alphasort xs) ih

/-- The per-entry loop of `config_dir_load` (config.c:214-227): skip `.` and
`..`, open every other entry in directory mode (no global destroy), return the
first failure at once.  `results` pairs each processed path with its status. -/
def dirLoop (sys : Sys) (cb : Map → Int) (path : String) :
    List String → PState → Int × PState × List (String × Int)
  | [], st => (0, st, [])
  | e :: rest, st =>
      if e ≠ "." ∧ e ≠ ".." then
        let r := config_open sys cb st (path ++ "/" ++ e) false
        if r.1 ≠ 0 then (r.1, r.2.1, [(path ++ "/" ++ e, r.1)])
        else
          let res := dirLoop sys cb path rest r.2.1
          (res.1, res.2.1, (path ++ "/" ++ e, 0) :: res.2.2)
      else dirLoop sys cb path rest st

/-- The outcome of `config_dir_load`: status, final state, processed entries
with their statuses, and whether the listing-failure diagnostic was emitted. -/
structure DirRes where
  status : Int
  st : PState
  results : List (String × Int)
  perror : Bool
  deriving Repr, DecidableEq

/-- Model of `config_dir_load` (config.c:198-235): list the directory in sorted order;
on listing failure emit the diagnostic unless `quiet` and return the generic
`-1`; otherwise run the loop — a loop failure is returned at once (skipping
the final global destroy), success destroys the global map when present. -/
def config_dir_load (sys : Sys) (cb : Map → Int) (path : String) (quiet : Bool) : DirRes :=
  match sys.readdir path with
  | none => ⟨-1, initState, [], !quiet⟩
  | some entries =>
      let r := dirLoop sys cb path (alphasort entries) initState
      if r.1 ≠ 0 then ⟨r.1, r.2.1, r.2.2, false⟩
      else if r.2.1.global.isSome then
        ⟨0, { r.2.1 with destroyed := r.2.1.destroyed + 1 }, r.2.2, false⟩
      else ⟨0, r.2.1, r.2.2, false⟩

/-- With a successful listing, the loop's status, results and trace surface
unchanged in `config_dir_load`'s outcome. -/
theorem config_dir_load_shape (sys : Sys) (cb : Map → Int) (path : String)
    (quiet : Bool) (entries : List String) (hrd : sys.readdir path = some entries) :
    (config_dir_load sys cb path quiet).results =
      (dirLoop sys cb path (alphasort entries) initState).2.2 ∧
    (config_dir_load sys cb path quiet).status =
      (dirLoop sys cb path (alphasort entries) initState).1 ∧
    (config_dir_load sys cb path quiet).st.trace =
      (dirLoop sys cb path (alphasort entries) initState).2.1.trace := by
  simp only [config_dir_load, hrd]
  by_cases h : (dirLoop sys cb path (alphasort entries) initState).1 ≠ 0
  · simp [h]
  · rw [not_not] at h
    by_cases hg : (dirLoop sys cb path (alphasort entries) initState).2.1.global.isSome <;>
      simp [h, hg]

/-- Shape of the loop: the processed paths are an in-order prefix of the
sorted, filtered entries (the whole of it on success); every processed entry
but the last succeeded; on failure the failing entry is the last processed
and carries the returned status. -/
theorem dirLoop_prefix_abort (sys : Sys) (cb : Map → Int) (path : String)
    (l : List String) (st : PState) :
    (∃ rest, (l.filter (fun e => decide (e ≠ "." ∧ e ≠ ".."))).map
        (fun e => path ++ "/" ++ e) =
      ((dirLoop sys cb path l st).2.2.map Prod.fst) ++ rest) ∧
    ((dirLoop sys cb path l st).1 = 0 →
      (dirLoop sys cb path l st).2.2.map Prod.fst =
        (l.filter (fun e => decide (e ≠ "." ∧ e ≠ ".."))).map (fun e => path ++ "/" ++ e)) ∧
    (∀ x ∈ (dirLoop sys cb path l st).2.2.dropLast, x.2 = 0) ∧
    ((dirLoop sys cb path l st).1 ≠ 0 →
      (dirLoop sys cb path l st).2.2.getLast?.map Prod.snd =
        some (dirLoop sys cb path l st).1) := by
  induction l generalizing st with
  | nil =>
      exact ⟨⟨[], by simp [dirLoop]⟩, fun _ => by simp [dirLoop], by simp [dirLoop],
        fun h => absurd rfl h⟩
  | cons e rest ih =>
      by_cases hk : e ≠ "." ∧ e ≠ ".."
      · rw [show dirLoop sys cb path (e :: rest) st =
            (if (config_open sys cb st (path ++ "/" ++ e) false).1 ≠ 0 then
              ((config_open sys cb st (path ++ "/" ++ e) false).1,
               (config_open sys cb st (path ++ "/" ++ e) false).2.1,
               [(path ++ "/" ++ e, (config_open sys cb st (path ++ "/" ++ e) false).1)])
            else
              ((dirLoop sys cb path rest
                  (config_open sys cb st (path ++ "/" ++ e) false).2.1).1,
               (dirLoop sys cb path rest
                  (config_open sys cb st (path ++ "/" ++ e) false).2.1).2.1,
               (path ++ "/" ++ e, 0) ::
                 (dirLoop sys cb path rest
                    (config_open sys cb st (path ++ "/" ++ e) false).2.1).2.2))
          from by rw [dirLoop, if_pos hk]]
        rw [show (e :: rest).filter (fun x => decide (x ≠ "." ∧ x ≠ "..")) =
            e :: rest.filter (fun x => decide (x ≠ "." ∧ x ≠ "..")) from by simp [hk]]
        by_cases hf : (config_open sys cb st (path ++ "/" ++ e) false).1 ≠ 0
        · rw [if_pos hf]
          refine ⟨⟨(rest.filter (fun x => decide (x ≠ "." ∧ x ≠ ".."))).map
            (fun x => path ++ "/" ++ x), by simp⟩, ?_, by simp, by simp⟩
          intro h0
          exact absurd h0 hf
        · rw [if_neg hf]
          obtain ⟨⟨tail, h1⟩, h2, h3, h4⟩ :=
            ih (config_open sys cb st (path ++ "/" ++ e) false).2.1
          refine ⟨⟨tail, by simpa using h1⟩, ?_, ?_, ?_⟩
          · intro h0
            simp only [List.map_cons, List.map_cons]
            rw [h2 h0]
          · intro x hx
            cases hres : (dirLoop sys cb path rest
                (config_open sys cb st (path ++ "/" ++ e) false).2.1).2.2 with
            | nil =>
                rw [hres] at hx
                simp at hx
            | cons y ys =>
                rw [hres] at hx
                simp only [List.dropLast] at hx
                rcases List.mem_cons.mp hx with rfl | hx
                · rfl
                · have := h3 x
                  rw [hres] at this
                  exact this (by simpa [List.dropLast] using hx)
          · intro h0
            have h4' := h4 h0
            show Option.map Prod.snd
                ((path ++ "/" ++ e, 0) ::
                  (dirLoop sys cb path rest
                    (config_open sys cb st (path ++ "/" ++ e) false).2.1).2.2).getLast? =
              some (dirLoop sys cb path rest
                (config_open sys cb st (path ++ "/" ++ e) false).2.1).1
            cases hres : (dirLoop sys cb path rest
                (config_open sys cb st (path ++ "/" ++ e) false).2.1).2.2 with
            | nil =>
                rw [hres] at h4'
                simp at h4'
            | cons y ys =>
                rw [hres] at h4'
                rw [List.getLast?_cons_cons]
                exact h4'
      · rw [show dirLoop sys cb path (e :: rest) st = dirLoop sys cb path rest st
          from by rw [dirLoop, if_neg hk]]
        rw [show (e :: rest).filter (fun x => decide (x ≠ "." ∧ x ≠ "..")) =
            rest.filter (fun x => decide (x ≠ "." ∧ x ≠ "..")) from by simp [hk]]
        exact ih st

/-- The delivery trace of a directory load: one shared global map accumulates
across the files, and each file's sections copy the globals as accumulated up
to (and including) that file's own preamble. -/
def dirTrace (g : Option Map) : List IniFile → List Map
  | [] => []
  | f :: fs => fileTrace g f ++ dirTrace (preFold g f.preamble) fs

/-- The shared global map after a sequence of files. -/
def dirGlobal (g : Option Map) : List IniFile → Option Map
  | [] => g
  | f :: fs => dirGlobal (preFold g f.preamble) fs

theorem dirLoop_cons_keep (sys : Sys) (cb : Map → Int) (path e : String)
    (rest : List String) (st : PState) (hk : e ≠ "." ∧ e ≠ "..")
    (h0 : (config_open sys cb st (path ++ "/" ++ e) false).1 = 0) :
    dirLoop sys cb path (e :: rest) st =
      ((dirLoop sys cb path rest (config_open sys cb st (path ++ "/" ++ e) false).2.1).1,
       (dirLoop sys cb path rest (config_open sys cb st (path ++ "/" ++ e) false).2.1).2.1,
       (path ++ "/" ++ e, 0) ::
         (dirLoop sys cb path rest
           (config_open sys cb st (path ++ "/" ++ e) false).2.1).2.2) := by
  rw [dirLoop, if_pos hk]
  simp [h0]

theorem dirLoop_cons_skip (sys : Sys) (cb : Map → Int) (path e : String)
    (rest : List String) (st : PState) (hk : ¬(e ≠ "." ∧ e ≠ "..")) :
    dirLoop sys cb path (e :: rest) st = dirLoop sys cb path rest st := by
  rw [dirLoop, if_neg hk]

/-- Content of a fully successful directory loop: the delivered sections are
the files' traces in order, each merging the global map accumulated over all
earlier files of the directory. -/
theorem dirLoop_ok (sys : Sys) (cb : Map → Int) (path : String) (F : String → IniFile)
    (hcb : ∀ m, cb m = 0) (hch : ∀ dn, sys.chdir dn = 0) (l : List String)
    (hopen : ∀ e ∈ l, (e ≠ "." ∧ e ≠ "..") →
      sys.openf (path ++ "/" ++ e) = .ok (flatten (F (path ++ "/" ++ e)), -EAGAIN)) :
    ∀ (g : Option Map) (t : List Map) (c d : Nat),
      ∃ c' : Nat,
        dirLoop sys cb path l ⟨g, none, t, c, d⟩ =
          (0, ⟨dirGlobal g ((l.filter (fun e => decide (e ≠ "." ∧ e ≠ ".."))).map
                  (fun e => F (path ++ "/" ++ e))), none,
               t ++ dirTrace g ((l.filter (fun e => decide (e ≠ "." ∧ e ≠ ".."))).map
                  (fun e => F (path ++ "/" ++ e))), c', d⟩,
           (l.filter (fun e => decide (e ≠ "." ∧ e ≠ ".."))).map
              (fun e => (path ++ "/" ++ e, (0 : Int)))) := by
  induction l with
  | nil =>
      intro g t c d
      exact ⟨c, by simp [dirLoop, dirGlobal, dirTrace]⟩
  | cons e rest ih =>
      intro g t c d
      by_cases hk : e ≠ "." ∧ e ≠ ".."
      · have hread := config_read_flatten cb hcb (-EAGAIN) (Or.inr rfl)
          (F (path ++ "/" ++ e)) g t c d
        have hcopen := config_open_ok sys cb ⟨g, none, t, c, d⟩ (path ++ "/" ++ e) false
          (flatten (F (path ++ "/" ++ e))) (-EAGAIN) (hopen e (by simp) hk) hch
        rw [hread] at hcopen
        simp only [Bool.false_eq_true, false_and, if_false] at hcopen
        obtain ⟨c2, hres⟩ := ih (fun x hx hkx => hopen x (List.mem_cons_of_mem _ hx) hkx)
          (preFold g (F (path ++ "/" ++ e)).preamble)
          (t ++ fileTrace g (F (path ++ "/" ++ e)))
          (c + globDelta g (F (path ++ "/" ++ e)).preamble +
            (F (path ++ "/" ++ e)).sections.length) d
        refine ⟨c2, ?_⟩
        rw [dirLoop_cons_keep sys cb path e rest _ hk (by rw [hcopen])]
        rw [show (config_open sys cb ⟨g, none, t, c, d⟩ (path ++ "/" ++ e) false).2.1 =
              (⟨preFold g (F (path ++ "/" ++ e)).preamble, none,
                t ++ fileTrace g (F (path ++ "/" ++ e)),
                c + globDelta g (F (path ++ "/" ++ e)).preamble +
                  (F (path ++ "/" ++ e)).sections.length, d⟩ : PState)
            from by rw [hcopen]]
        rw [hres]
        simp [dirGlobal, dirTrace, hk, List.append_assoc]
      · rw [dirLoop_cons_skip sys cb path e rest _ hk]
        rw [show (e :: rest).filter (fun x => decide (x ≠ "." ∧ x ≠ "..")) =
            rest.filter (fun x => decide (x ≠ "." ∧ x ≠ "..")) from by simp [hk]]
        exact ih (fun x hx hkx => hopen x (List.mem_cons_of_mem _ hx) hkx) g t c d

/-- C3: with a listable directory, entries are processed in lexicographic
order with `.` and `..` skipped (the processed paths are an in-order prefix
of the sorted filtered entries — all of them exactly when the load succeeds);
every processed entry except possibly the last succeeded, and a nonzero
result is the reported status of the last entry processed, so entries after a
failure are never opened; and one shared global store persists across the
directory's files: on full success the delivery trace merges into each file's
sections the globals accumulated over all earlier entries. -/
theorem c3_dir_lexicographic_shared_global (sys : Sys) (cb : Map → Int) (path : String)
    (quiet : Bool) (entries : List String) (hrd : sys.readdir path = some entries) :
    (alphasort entries).Pairwise (fun a b => strLe a.data b.data = true) ∧
    (∃ rest, ((alphasort entries).filter (fun e => decide (e ≠ "." ∧ e ≠ ".."))).map
        (fun e => path ++ "/" ++ e) =
      ((config_dir_load sys cb path quiet).results.map Prod.fst) ++ rest) ∧
    ((config_dir_load sys cb path quiet).status = 0 →
      (config_dir_load sys cb path quiet).results.map Prod.fst =
        ((alphasort entries).filter (fun e => decide (e ≠ "." ∧ e ≠ ".."))).map
          (fun e => path ++ "/" ++ e)) ∧
    (∀ x ∈ (config_dir_load sys cb path quiet).results.dropLast, x.2 = 0) ∧
    ((config_dir_load sys cb path quiet).status ≠ 0 →
      (config_dir_load sys cb path quiet).results.getLast?.map Prod.snd =
        some (config_dir_load sys cb path quiet).status) ∧
    (∀ F : String → IniFile,
      (∀ e ∈ alphasort entries, (e ≠ "." ∧ e ≠ "..") →
        sys.openf (path ++ "/" ++ e) = .ok (flatten (F (path ++ "/" ++ e)), -EAGAIN)) →
      (∀ m, cb m = 0) → (∀ dn, sys.chdir dn = 0) →
      (config_dir_load sys cb path quiet).status = 0 ∧
      (config_dir_load sys cb path quiet).st.trace =
        dirTrace none (((alphasort entries).filter
          (fun e => decide (e ≠ "." ∧ e ≠ ".."))).map
            (fun e => F (path ++ "/" ++ e)))) := by
  obtain ⟨hres, hstat, htr⟩ := config_dir_load_shape sys cb path quiet entries hrd
  obtain ⟨h1, h2, h3, h4⟩ := dirLoop_prefix_abort sys cb path (alphasort entries) initState
  refine ⟨alphasort_pairwise entries, ?_, ?_, ?_, ?_, ?_⟩
  · rw [hres]
    exact h1
  · intro h0
    rw [hres]
    exact h2 (hstat.symm.trans h0)
  · rw [hres]
    exact h3
  · intro h0
    rw [hres, hstat]
    exact h4 (fun hl => h0 (hstat.trans hl))
  · intro F hopen hcb hch
    obtain ⟨c', hloop⟩ := dirLoop_ok sys cb path F hcb hch (alphasort entries) hopen
      none [] 0 0
    have hinit : (initState : PState) = ⟨none, none, [], 0, 0⟩ := rfl
    constructor
    · rw [hstat, hinit, hloop]
    · rw [htr, hinit, hloop]
      simp

def F_c3 : String → IniFile :=
  fun p => if p = "/dd/a" then ⟨[("g", "1")], []⟩ else ⟨[], [("B", [])]⟩

def sys_c3 : Sys :=
  ⟨fun _ => none,
   fun p => .ok (flatten (F_c3 p), -EAGAIN),
   fun _ => 0,
   fun p => if p = "/dd" then some ["b", ".", "a"] else none⟩

/-- Witness for C3: entry `a` (a preamble-only file) is processed before `b`
despite the raw listing order, `.` is skipped, and `b`'s section inherits
`a`'s global key. -/
theorem c3_dir_lexicographic_shared_global_witness :
    ((config_dir_load sys_c3 (fun _ => 0) "/dd" false).status = 0 ∧
      (config_dir_load sys_c3 (fun _ => 0) "/dd" false).st.trace =
        dirTrace none (((alphasort ["b", ".", "a"]).filter
          (fun e => decide (e ≠ "." ∧ e ≠ ".."))).map
            (fun e => F_c3 ("/dd" ++ "/" ++ e)))) ∧
    dirTrace none (((alphasort ["b", ".", "a"]).filter
      (fun e => decide (e ≠ "." ∧ e ≠ ".."))).map
        (fun e => F_c3 ("/dd" ++ "/" ++ e))) = [[("g", "1"), ("name", "B")]] :=
  ⟨(c3_dir_lexicographic_shared_global sys_c3 (fun _ => 0) "/dd" false
      ["b", ".", "a"] rfl).2.2.2.2.2 F_c3 (fun _ _ _ => rfl) (fun _ => rfl) (fun _ => rfl),
   rfl⟩

/-- C7 counterexample: an unlistable directory with `quiet` set emits NO
diagnostic, while without `quiet` it does — the claim's "unless the quiet
flag is set, in which case only a diagnostic is emitted" inverts the code's
`if (!quiet) perror(path)`. -/
theorem c7_counterexample_quiet_suppresses_diag :
    (config_dir_load sys_c6 (fun _ => 0) "/d" true).perror = false ∧
    (config_dir_load sys_c6 (fun _ => 0) "/d" false).perror = true :=
  ⟨rfl, rfl⟩

/-- C7 amended: when the directory cannot be listed, the diagnostic is
emitted unless `quiet` is set; in both cases the call returns the generic
soft-failure code `-1` — distinct from not-found — after processing no
entry. -/
theorem c7_dir_list_failure (sys : Sys) (cb : Map → Int) (path : String) (quiet : Bool)
    (h : sys.readdir path = none) :
    (config_dir_load sys cb path quiet).status = -1 ∧
    (config_dir_load sys cb path quiet).perror = !quiet ∧
    (config_dir_load sys cb path quiet).results = [] ∧
    (config_dir_load sys cb path quiet).status ≠ -ENOENT := by
  refine ⟨by simp [config_dir_load, h], by simp [config_dir_load, h],
    by simp [config_dir_load, h], ?_⟩
  simp only [config_dir_load, h]
  decide

/-- Witness for C7 (amended) at a concrete unlistable directory with `quiet`
set. -/
theorem c7_dir_list_failure_witness :
    (config_dir_load sys_c6 (fun _ => 0) "/d" true).status = -1 ∧
    (config_dir_load sys_c6 (fun _ => 0) "/d" true).perror = !true ∧
    (config_dir_load sys_c6 (fun _ => 0) "/d" true).results = [] ∧
    (config_dir_load sys_c6 (fun _ => 0) "/d" true).status ≠ -ENOENT :=
  c7_dir_list_failure sys_c6 (fun _ => 0) "/d" true rfl

def sys_c8 : Sys :=
  ⟨fun _ => none,
   fun _ => .ok (flatten ⟨[("a", "1")], [("S", [])]⟩, -EAGAIN),
   fun _ => 0, fun _ => none⟩

/-- C8 counterexample: a successful explicit-path load of a file with one
global key and one section performs two `map_create` calls (globals and the
section map) but only one `map_destroy` (the globals, in single mode):
`config_finalize` only drops the section reference after the callback
returns, it never frees the section map, so that store outlives the
top-level call. -/
theorem c8_counterexample_section_never_freed :
    (config_load sys_c8 (fun _ => 0) (some "/p")).st.created = 2 ∧
    (config_load sys_c8 (fun _ => 0) (some "/p")).st.destroyed = 1 :=
  ⟨rfl, rfl⟩

/-- C8 amended: over a successful explicit-path (single-mode) load,
`config_finalize` never frees section maps — the callback inherits them — so
the maps created exceed the maps destroyed by exactly the number of sections;
only the global map is destroyed, when the preamble created one. -/
theorem c8_section_maps_outlive_finalize (sys : Sys) (cb : Map → Int) (p : String)
    (f : IniFile) (endSt : Int) (hopen : sys.openf p = .ok (flatten f, endSt))
    (hch : ∀ dn, sys.chdir dn = 0) (hcb : ∀ m, cb m = 0)
    (hend : endSt = 0 ∨ endSt = -EAGAIN) :
    (config_load sys cb (some p)).st.created =
      f.sections.length + (config_load sys cb (some p)).st.destroyed ∧
    (config_load sys cb (some p)).st.destroyed =
      (if f.preamble.isEmpty then 0 else 1) := by
  have hread := config_read_flatten cb hcb endSt hend f none [] 0 0
  have hopen' := config_open_ok sys cb initState p true (flatten f) endSt hopen hch
  have hinit : (initState : PState) = ⟨none, none, [], 0, 0⟩ := rfl
  rw [hinit, hread] at hopen'
  have hst : (config_load sys cb (some p)).st =
      (config_open sys cb initState p true).2.1 := rfl
  rw [hst, hinit, hopen']
  cases hpre : f.preamble with
  | nil => simp [preFold, globDelta]
  | cons kv ps =>
      simp [preFold, preFold_some, globDelta]
      omega

/-- Witness for C8 (amended) at the concrete one-key one-section file. -/
theorem c8_section_maps_outlive_finalize_witness :
    (config_load sys_c8 (fun _ => 0) (some "/p")).st.created =
      (⟨[("a", "1")], [("S", [])]⟩ : IniFile).sections.length +
        (config_load sys_c8 (fun _ => 0) (some "/p")).st.destroyed ∧
    (config_load sys_c8 (fun _ => 0) (some "/p")).st.destroyed =
      (if (⟨[("a", "1")], [("S", [])]⟩ : IniFile).preamble.isEmpty then 0 else 1) :=
  c8_section_maps_outlive_finalize sys_c8 (fun _ => 0) "/p" ⟨[("a", "1")], [("S", [])]⟩
    (-EAGAIN) rfl (fun _ => rfl) (fun _ => rfl) (Or.inr rfl)

def c1_input : String := "global_key=1\n[A]\nkey=x\n[B]\nkey=y\nglobal_key=2\n"

/-- C1: parsing `global_key=1\n[A]\nkey=x\n[B]\nkey=y\nglobal_key=2\n` invokes
the callback exactly twice, first with `{global_key:"1", name:"A", key:"x"}`
and then with `{global_key:"2", name:"B", key:"y"}`: section B's final
`global_key` is `"2"` (its own in-section override, written while B was the
open section) while section A's stays `"1"`. -/
theorem c1_roundtrip_scenario :
    config_read (fun _ => 0) (tokenize c1_input) (-EAGAIN) initState =
      (0, ⟨some [("global_key", "1")], none,
           [[("global_key", "1"), ("name", "A"), ("key", "x")],
            [("global_key", "2"), ("name", "B"), ("key", "y")]], 3, 0⟩) := by
  rfl
